import Mathlib

/-!
Shallow embedding of the NYT Spelling Bee solver (`src/solver.py`) and
verification of its specification.

Words and dictionary lines are lists of characters.  Python `float`
frequency scores are modelled as rationals: the Zipf scores are opaque
inputs from an external service, and every arithmetic comparison the
solver performs on them is stated with the exact constants the source
writes (`0.3`, `0.5`, `0.6`).
-/

namespace SpellingBee

abbrev Word := List Char

/-- The `WordResult` dataclass (solver.py lines 48-54). -/
structure WordResult where
  word : Word
  score : Nat
  is_pangram : Bool
  length : Nat
  zipf_score : ℚ
deriving DecidableEq, Repr

/-- The character class `[qxz]` of `EXCLUDE_PATTERNS` (solver.py line 59). -/
def isRareLetter (c : Char) : Bool :=
  c == 'q' || c == 'x' || c == 'z'

/-- `re.match(r".*[qxz]{2,}.*", w)` (solver.py line 59): the regex matches
iff some adjacent pair of characters of the word are both rare. -/
def hasConsecutiveRare : Word → Bool
  | a :: b :: rest => (isRareLetter a && isRareLetter b) || hasConsecutiveRare (b :: rest)
  | _ => false

/-- The `for pattern in EXCLUDE_PATTERNS` loop (solver.py lines 90-92) as a
single test: on the `[a-z]+` words the pipeline produces, `^.{15,}$`
matches iff the length is at least 15, and `.*[qxz]{2,}.*` iff the word
has two consecutive rare letters. -/
def matchesExcludePattern (word : Word) : Bool :=
  decide (15 ≤ word.length) || hasConsecutiveRare word

/-- `_is_obscure_word` (solver.py lines 88-97).  The comparison
`word.count(char) >= len(word) * 0.6` is stated rationally as
`5 * count ≥ 3 * len`; on the lengths this branch can reach (6..14, since
longer words already matched the first exclude pattern) the IEEE product
`len * 0.6` admits exactly the same integer counts. -/
def _is_obscure_word (word : Word) : Bool :=
  if matchesExcludePattern word then true
  else if 6 ≤ word.length ∧ ∃ c ∈ word.dedup, 3 * word.length ≤ 5 * word.count c then true
  else false

/-- `non_plural_endings` (solver.py line 82). -/
def non_plural_endings : List Word :=
  [['o','u','s'], ['n','e','s','s'], ['l','e','s','s'], ['i','o','u','s'], ['u','s']]

/-- `_is_likely_plural` (solver.py lines 76-86); `str.endswith` is the
list suffix test. -/
def _is_likely_plural (word : Word) : Bool :=
  if ¬ (['s'].isSuffixOf word) ∨ word.length ≤ 4 then false
  else if ['s','s'].isSuffixOf word then false
  else if non_plural_endings.any (fun e => e.isSuffixOf word) then false
  else true

/-- `_is_valid_word` (solver.py lines 99-117).  `letters_set` is the set of
puzzle letters as a duplicate-free list; `center in word` is the
single-character substring test; `set(word).issubset(letters_set)` says
every character of the word is a puzzle letter. -/
def _is_valid_word (word : Word) (letters_set : List Char) (center : Char)
    (min_len : Nat) (filter_plurals : Bool) (filter_obscure : Bool) : Bool :=
  if word.length < min_len then false
  else if center ∉ word then false
  else if ¬ (∀ c ∈ word, c ∈ letters_set) then false
  else if filter_plurals ∧ _is_likely_plural word then false
  else if filter_obscure ∧ _is_obscure_word word then false
  else true

/-- `_is_pangram` (solver.py lines 119-120):
`set(word).issuperset(letters_set)`. -/
def _is_pangram (word : Word) (letters_set : List Char) : Bool :=
  decide (∀ c ∈ letters_set, c ∈ word)

/-- `_score_word` (solver.py lines 122-125). -/
def _score_word (word : Word) (letters_set : List Char) (pangram_bonus : Nat) : Nat × Bool :=
  let is_pg := _is_pangram word letters_set
  let base : Nat := if word.length = 4 then 1 else word.length
  (base + (if is_pg then pangram_bonus else 0), is_pg)

/-- `_get_zipf` (solver.py lines 62-67): the external `wordfreq` service is
an optional oracle `Word → ℚ`; `none` models `zipf_frequency is None`
(the import failed).  The `lru_cache` memoizes without changing values. -/
def _get_zipf (zipf_frequency : Option (Word → ℚ)) (word : Word) : ℚ :=
  match zipf_frequency with
  | none => 0
  | some f => f word

/-- `re.match(_WORD_RE, w)` with `_WORD_RE = ^[a-z]+$` (solver.py
lines 56, 73): one or more ASCII lowercase letters. -/
def wordREMatch (w : Word) : Bool :=
  !w.isEmpty && w.all fun c => decide ('a' ≤ c) && decide (c ≤ 'z')

/-- Python `str.strip()`: whitespace removed from both ends. -/
def strip (l : Word) : Word :=
  ((l.dropWhile Char.isWhitespace).reverse.dropWhile Char.isWhitespace).reverse

/-- `_load_words` (solver.py lines 69-74): each line of the word source is
stripped and lowercased and kept iff it matches `_WORD_RE`.  The open file
is modelled as the list of its lines. -/
def _load_words (lines : List Word) : List Word :=
  lines.filterMap fun line =>
    let w := (strip line).map Char.toLower
    if wordREMatch w then some w else none

/-- Python string `<=` on words: lexicographic by character code. -/
def wordLE : Word → Word → Bool
  | [], _ => true
  | _ :: _, [] => false
  | a :: xs, b :: ys => if a < b then true else if b < a then false else wordLE xs ys

/-- The comparison realising `results.sort(key=lambda r: (-r.score, r.word))`
(solver.py line 182): descending score, ascending word. -/
def resultLE (a b : WordResult) : Bool :=
  if b.score < a.score then true
  else if a.score = b.score then wordLE a.word b.word
  else false

/-- `max_len is not None and len(word) > max_len` (solver.py line 158). -/
def maxLenExceeded (max_len : Option Nat) (n : Nat) : Bool :=
  match max_len with
  | some m => decide (m < n)
  | none => false

/-- The body of the `for word in _load_words(...)` loop of
`solve_spellingbee` (solver.py lines 154-180): `none` models `continue`,
`some r` models `results.append(r)`. -/
def processWord (uniq_letters_set : List Char) (center : Char) (min_len : Nat)
    (pangram_bonus : Nat) (min_zipf : Option ℚ) (max_len : Option Nat)
    (filter_plurals : Bool) (filter_obscure : Bool) (use_aggressive_filtering : Bool)
    (zipf_frequency : Option (Word → ℚ)) (word : Word) : Option WordResult :=
  if ¬ _is_valid_word word uniq_letters_set center min_len filter_plurals filter_obscure then
    none
  else if maxLenExceeded max_len word.length then
    none
  else
    match min_zipf, zipf_frequency with
    | some t, some f =>
      let z := _get_zipf (some f) word
      if z < t then none
      else if use_aggressive_filtering ∧ 8 ≤ word.length ∧ z < t + 3/10 then none
      else if use_aggressive_filtering ∧ 9 ≤ word.length ∧ z < t + 1/2 then none
      else
        let sc := _score_word word uniq_letters_set pangram_bonus
        some ⟨word, sc.1, sc.2, word.length, z⟩
    | _, _ =>
      let sc := _score_word word uniq_letters_set pangram_bonus
      some ⟨word, sc.1, sc.2, word.length, 0⟩

/-- `solve_spellingbee` (solver.py lines 127-183).  The word source is the
list of lines of the wordlist file; the `ValueError`s of the configuration
check (the spec's ConfigurationError) are `Except.error`; the final sort is
a stable merge sort on the key `(-score, word)`.  `sorted(set(letters))` is
modelled as `dedup` — only its set of members is used downstream. -/
def solve_spellingbee (letters : List Char) (center : Char) (lines : List Word)
    (min_len : Nat) (pangram_bonus : Nat) (min_zipf : Option ℚ) (max_len : Option Nat)
    (filter_plurals : Bool) (filter_obscure : Bool) (use_aggressive_filtering : Bool)
    (zipf_frequency : Option (Word → ℚ)) : Except String (List WordResult) :=
  let letters2 := letters.map Char.toLower
  let center2 := center.toLower
  let uniq_letters := letters2.dedup
  if uniq_letters.length ≠ 7 then
    .error "Expected 7 distinct letters"
  else if center2 ∉ uniq_letters then
    .error "Center letter must be among the puzzle letters"
  else
    let results := (_load_words lines).filterMap
      (processWord uniq_letters center2 min_len pangram_bonus min_zipf max_len
        filter_plurals filter_obscure use_aggressive_filtering zipf_frequency)
    .ok (results.mergeSort resultLE)

/-! ### Order lemmas for the sort comparison -/

lemma wordLE_iff (x : Word) : ∀ y : Word, wordLE x y = true ↔ (x = y ∨ List.Lex (· < ·) x y) := by
  induction x with
  | nil =>
    intro y
    cases y with
    | nil => simp [wordLE]
    | cons b ys => simpa [wordLE] using List.Lex.nil
  | cons a xs ih =>
    intro y
    cases y with
    | nil =>
      simp only [wordLE]
      constructor
      · intro h; exact absurd h (by simp)
      · rintro (h | h)
        · exact absurd h (by simp)
        · cases h
    | cons b ys =>
      rcases lt_trichotomy a b with h | h | h
      · simp only [wordLE, if_pos h]
        constructor
        · intro _; exact Or.inr (List.Lex.rel h)
        · intro _; trivial
      · subst h
        simp only [wordLE, lt_irrefl, if_false]
        rw [ih ys]
        constructor
        · rintro (rfl | h)
          · exact Or.inl rfl
          · exact Or.inr (List.Lex.cons h)
        · rintro (h | h)
          · injection h with _ h2; exact Or.inl h2
          · cases h with
            | cons h2 => exact Or.inr h2
            | rel h2 => exact absurd h2 (lt_irrefl _)
      · simp only [wordLE, if_neg (asymm h), if_pos h]
        constructor
        · intro hh; exact absurd hh (by simp)
        · rintro (hh | hh)
          · injection hh with hh1 _; exact absurd hh1.symm (ne_of_lt h)
          · cases hh with
            | cons h2 => exact absurd h (lt_irrefl _)
            | rel h2 => exact absurd h2 (asymm h)

lemma wordLE_total (x y : Word) : wordLE x y = true ∨ wordLE y x = true := by
  rw [wordLE_iff, wordLE_iff]
  rcases trichotomous_of (List.Lex (· < ·) : Word → Word → Prop) x y with h | h | h
  · exact Or.inl (Or.inr h)
  · exact Or.inl (Or.inl h)
  · exact Or.inr (Or.inr h)

lemma wordLE_trans {x y z : Word} (h1 : wordLE x y = true) (h2 : wordLE y z = true) :
    wordLE x z = true := by
  rw [wordLE_iff] at h1 h2 ⊢
  rcases h1 with rfl | h1
  · exact h2
  · rcases h2 with rfl | h2
    · exact Or.inr h1
    · exact Or.inr (trans_of (List.Lex (· < ·) : Word → Word → Prop) h1 h2)

lemma resultLE_iff (a b : WordResult) :
    resultLE a b = true ↔ (b.score < a.score ∨ (a.score = b.score ∧ wordLE a.word b.word = true)) := by
  unfold resultLE
  split
  · simp_all
  · split <;> simp_all

lemma resultLE_total (a b : WordResult) : (resultLE a b || resultLE b a) = true := by
  rcases lt_trichotomy a.score b.score with h | h | h
  · simp [resultLE_iff, h]
  · rcases wordLE_total a.word b.word with h' | h' <;>
      simp [resultLE_iff, h, h']
  · simp [resultLE_iff, h]

lemma resultLE_trans (a b c : WordResult) (h1 : resultLE a b = true) (h2 : resultLE b c = true) :
    resultLE a c = true := by
  rw [resultLE_iff] at h1 h2 ⊢
  rcases h1 with h1 | ⟨h1e, h1w⟩
  · rcases h2 with h2 | ⟨h2e, _⟩
    · exact Or.inl (h2.trans h1)
    · exact Or.inl (h2e ▸ h1)
  · rcases h2 with h2 | ⟨h2e, h2w⟩
    · exact Or.inl (h1e ▸ h2)
    · exact Or.inr ⟨h1e.trans h2e, wordLE_trans h1w h2w⟩

/-! ### Inversion lemmas for the validator and the pipeline -/

lemma is_valid_word_true_iff (word : Word) (ls : List Char) (c : Char) (ml : Nat)
    (fp fo : Bool) :
    _is_valid_word word ls c ml fp fo = true ↔
      (ml ≤ word.length ∧ c ∈ word ∧ (∀ ch ∈ word, ch ∈ ls) ∧
        ¬ (fp = true ∧ _is_likely_plural word = true) ∧
        ¬ (fo = true ∧ _is_obscure_word word = true)) := by
  unfold _is_valid_word
  repeat' split
  all_goals simp_all

lemma processWord_eq_some (uls : List Char) (c : Char) (ml pb : Nat) (mz : Option ℚ)
    (mx : Option Nat) (fp fo ag : Bool) (orc : Option (Word → ℚ)) (w : Word) (r : WordResult)
    (h : processWord uls c ml pb mz mx fp fo ag orc w = some r) :
    r.word = w ∧ r.length = w.length ∧
      _is_valid_word w uls c ml fp fo = true ∧
      maxLenExceeded mx w.length = false ∧
      r.score = (_score_word w uls pb).1 ∧ r.is_pangram = (_score_word w uls pb).2 := by
  unfold processWord at h
  split at h
  · exact absurd h (by simp)
  next hvalid =>
    rw [not_not] at hvalid
    split at h
    · exact absurd h (by simp)
    next hlen =>
      rw [Bool.not_eq_true] at hlen
      split at h
      · simp only [_get_zipf] at h
        split at h
        · exact absurd h (by simp)
        · split at h
          · exact absurd h (by simp)
          · split at h
            · exact absurd h (by simp)
            · injection h with h
              subst h
              exact ⟨rfl, rfl, hvalid, hlen, rfl, rfl⟩
      · injection h with h
        subst h
        exact ⟨rfl, rfl, hvalid, hlen, rfl, rfl⟩

lemma processWord_eq_some_zipf (uls : List Char) (c : Char) (ml pb : Nat) (t : ℚ)
    (f : Word → ℚ) (mx : Option Nat) (fp fo ag : Bool) (w : Word) (r : WordResult)
    (h : processWord uls c ml pb (some t) mx fp fo ag (some f) w = some r) :
    r.zipf_score = f w ∧ t ≤ f w ∧
      (ag = true → (8 ≤ w.length → t + 3/10 ≤ f w) ∧ (9 ≤ w.length → t + 1/2 ≤ f w)) := by
  unfold processWord at h
  split at h
  · exact absurd h (by simp)
  split at h
  · exact absurd h (by simp)
  simp only [_get_zipf] at h
  split at h
  · exact absurd h (by simp)
  next hz =>
    split at h
    · exact absurd h (by simp)
    next h8 =>
      split at h
      · exact absurd h (by simp)
      next h9 =>
        injection h with h
        subst h
        exact ⟨rfl, not_lt.mp hz,
          fun hag => ⟨fun hlen => not_lt.mp fun hlt => h8 ⟨hag, hlen, hlt⟩,
            fun hlen => not_lt.mp fun hlt => h9 ⟨hag, hlen, hlt⟩⟩⟩

lemma processWord_zipf_eq_zero (uls : List Char) (c : Char) (ml pb : Nat) (mz : Option ℚ)
    (mx : Option Nat) (fp fo ag : Bool) (orc : Option (Word → ℚ)) (w : Word) (r : WordResult)
    (hdeg : mz = none ∨ orc = none)
    (h : processWord uls c ml pb mz mx fp fo ag orc w = some r) :
    r.zipf_score = 0 := by
  unfold processWord at h
  split at h
  · exact absurd h (by simp)
  split at h
  · exact absurd h (by simp)
  split at h
  · simp_all
  · injection h with h
    subst h
    rfl

lemma processWord_eq_some_of (uls : List Char) (c : Char) (ml pb : Nat) (t : ℚ)
    (f : Word → ℚ) (mx : Option Nat) (fp fo : Bool) (w : Word)
    (hvalid : _is_valid_word w uls c ml fp fo = true)
    (hlen : maxLenExceeded mx w.length = false)
    (hz : t ≤ f w) :
    processWord uls c ml pb (some t) mx fp fo false (some f) w =
      some ⟨w, (_score_word w uls pb).1, (_score_word w uls pb).2, w.length, f w⟩ := by
  simp [processWord, _get_zipf, hvalid, hlen, not_lt.mpr hz]

lemma processWord_minzipf_none (uls : List Char) (c : Char) (ml pb : Nat) (mx : Option Nat)
    (fp fo ag ag' : Bool) (orc orc' : Option (Word → ℚ)) (w : Word) :
    processWord uls c ml pb none mx fp fo ag orc w =
      processWord uls c ml pb none mx fp fo ag' orc' w := by
  unfold processWord
  cases orc <;> cases orc' <;> rfl

lemma processWord_oracle_none (uls : List Char) (c : Char) (ml pb : Nat) (mz : Option ℚ)
    (mx : Option Nat) (fp fo ag ag' : Bool) (w : Word) :
    processWord uls c ml pb mz mx fp fo ag none w =
      processWord uls c ml pb none mx fp fo ag' none w := by
  unfold processWord
  cases mz <;> rfl

lemma solve_eq_ok (letters : List Char) (center : Char) (lines : List Word)
    (ml pb : Nat) (mz : Option ℚ) (mx : Option Nat) (fp fo ag : Bool)
    (orc : Option (Word → ℚ)) (rs : List WordResult)
    (h : solve_spellingbee letters center lines ml pb mz mx fp fo ag orc = .ok rs) :
    (letters.map Char.toLower).dedup.length = 7 ∧
      center.toLower ∈ (letters.map Char.toLower).dedup ∧
      rs = ((_load_words lines).filterMap
          (processWord (letters.map Char.toLower).dedup center.toLower ml pb mz mx fp fo ag
            orc)).mergeSort resultLE := by
  simp only [solve_spellingbee] at h
  split at h
  · exact absurd h (by simp)
  next h7 =>
    split at h
    · exact absurd h (by simp)
    next hc =>
      injection h with h
      exact ⟨not_ne_iff.mp h7, not_not.mp hc, h.symm⟩

lemma solve_ok_mem (letters : List Char) (center : Char) (lines : List Word)
    (ml pb : Nat) (mz : Option ℚ) (mx : Option Nat) (fp fo ag : Bool)
    (orc : Option (Word → ℚ)) (rs : List WordResult)
    (h : solve_spellingbee letters center lines ml pb mz mx fp fo ag orc = .ok rs)
    (r : WordResult) :
    r ∈ rs ↔ ∃ w ∈ _load_words lines,
      processWord (letters.map Char.toLower).dedup center.toLower ml pb mz mx fp fo ag orc w =
        some r := by
  obtain ⟨-, -, rfl⟩ := solve_eq_ok letters center lines ml pb mz mx fp fo ag orc rs h
  rw [List.mem_mergeSort, List.mem_filterMap]

/-! ### Claim theorems for the pure predicates -/

lemma hasConsecutiveRare_iff (w : Word) :
    hasConsecutiveRare w = true ↔
      ∃ a b, isRareLetter a = true ∧ isRareLetter b = true ∧ [a, b] <:+: w := by
  induction w with
  | nil =>
    constructor
    · intro h; exact absurd h (by simp [hasConsecutiveRare])
    · rintro ⟨a, b, -, -, hinf⟩
      have := hinf.length_le
      simp at this
  | cons x t ih =>
    cases t with
    | nil =>
      constructor
      · intro h; exact absurd h (by simp [hasConsecutiveRare])
      · rintro ⟨a, b, -, -, hinf⟩
        have := hinf.length_le
        simp at this
    | cons y t2 =>
      rw [show hasConsecutiveRare (x :: y :: t2) =
          ((isRareLetter x && isRareLetter y) || hasConsecutiveRare (y :: t2)) from rfl]
      simp only [Bool.or_eq_true, Bool.and_eq_true, ih]
      constructor
      · rintro (⟨hx, hy⟩ | ⟨a, b, ha, hb, hinf⟩)
        · exact ⟨x, y, hx, hy, [], t2, rfl⟩
        · exact ⟨a, b, ha, hb, List.infix_cons_iff.mpr (Or.inr hinf)⟩
      · rintro ⟨a, b, ha, hb, hinf⟩
        rcases List.infix_cons_iff.mp hinf with hpre | hinf2
        · obtain ⟨rfl, hpre2⟩ := List.cons_prefix_cons.mp hpre
          obtain ⟨rfl, -⟩ := List.cons_prefix_cons.mp hpre2
          exact Or.inl ⟨ha, hb⟩
        · exact Or.inr ⟨a, b, ha, hb, hinf2⟩

/-- C3: `_score_word` reports a pangram exactly when the word's characters
include every letter of the 7-letter set, and scores 1 for length-4 words,
otherwise the length, plus `pangram_bonus` exactly for pangrams. -/
theorem score_word_spec (word : Word) (letters_set : List Char) (pangram_bonus : Nat) :
    ((_score_word word letters_set pangram_bonus).2 = true ↔ ∀ c ∈ letters_set, c ∈ word) ∧
    (_score_word word letters_set pangram_bonus).1 =
      (if word.length = 4 then 1 else word.length) +
        (if ∀ c ∈ letters_set, c ∈ word then pangram_bonus else 0) := by
  refine ⟨by simp [_score_word, _is_pangram], ?_⟩
  by_cases h : ∀ c ∈ letters_set, c ∈ word <;>
    simp [_score_word, _is_pangram, h]

/-- C5 fails as stated: the word "lines" meets all three structural
conditions (length ≥ 4, contains the center, characters inside the letter
set), yet `_is_valid_word` with the source's default filter flags returns
false, because the plural heuristic also rejects words. -/
theorem is_valid_word_structural_cex :
    _is_valid_word ['l','i','n','e','s'] ['a','e','i','l','n','s','t'] 'n' 4 true true = false ∧
      ¬ (['l','i','n','e','s'] : Word).length < 4 ∧ 'n' ∈ (['l','i','n','e','s'] : Word) ∧
      ∀ c ∈ (['l','i','n','e','s'] : Word), c ∈ (['a','e','i','l','n','s','t'] : List Char) := by
  decide

/-- C5 (amended): `_is_valid_word` is a pure total predicate, independent
of frequency, that returns false exactly when the length is below
`min_len`, the center letter is not a character of the word, some
character is outside the letter set, the plural filter is enabled and
`_is_likely_plural` flags the word, or the obscurity filter is enabled and
`_is_obscure_word` flags the word; in all other cases it returns true. -/
theorem is_valid_word_false_iff (word : Word) (letters_set : List Char) (center : Char)
    (min_len : Nat) (filter_plurals filter_obscure : Bool) :
    _is_valid_word word letters_set center min_len filter_plurals filter_obscure = false ↔
      (word.length < min_len ∨ center ∉ word ∨ (∃ c ∈ word, c ∉ letters_set) ∨
        (filter_plurals = true ∧ _is_likely_plural word = true) ∨
        (filter_obscure = true ∧ _is_obscure_word word = true)) := by
  rw [← Bool.not_eq_true, is_valid_word_true_iff]
  constructor
  · intro h
    by_contra hcon
    push_neg at hcon
    obtain ⟨h1, h2, h3, h4, h5⟩ := hcon
    exact h ⟨h1, h2, h3, fun hx => h4 hx.1 hx.2, fun hx => h5 hx.1 hx.2⟩
  · rintro (h | h | h | h | h) hcon
    · exact absurd hcon.1 (not_le.mpr h)
    · exact h hcon.2.1
    · obtain ⟨c, hcw, hcl⟩ := h
      exact hcl (hcon.2.2.1 c hcw)
    · exact hcon.2.2.2.1 h
    · exact hcon.2.2.2.2 h

/-- C6: `_is_likely_plural` holds exactly when the word ends in "s", has
length strictly greater than 4, does not end in "ss", and does not end in
any of the suffixes "ous", "ness", "less", "ious", "us". -/
theorem is_likely_plural_iff (word : Word) :
    _is_likely_plural word = true ↔
      (['s'] <:+ word ∧ 4 < word.length ∧ ¬ (['s','s'] <:+ word) ∧
        ¬ (['o','u','s'] <:+ word) ∧ ¬ (['n','e','s','s'] <:+ word) ∧
        ¬ (['l','e','s','s'] <:+ word) ∧ ¬ (['i','o','u','s'] <:+ word) ∧
        ¬ (['u','s'] <:+ word)) := by
  unfold _is_likely_plural
  split
  · next h =>
    simp only [Bool.false_eq_true, false_iff]
    rintro ⟨hs, hlen, -⟩
    rcases h with h | h
    · exact h (List.isSuffixOf_iff_suffix.mpr hs)
    · omega
  · next h =>
    push_neg at h
    obtain ⟨hs, hlen⟩ := h
    split
    · next hss =>
      simp only [Bool.false_eq_true, false_iff]
      rintro ⟨-, -, hss2, -⟩
      exact hss2 (List.isSuffixOf_iff_suffix.mp hss)
    · next hss =>
      split
      · next hend =>
        simp only [Bool.false_eq_true, false_iff]
        simp only [non_plural_endings, List.any_eq_true, List.mem_cons,
          List.not_mem_nil, or_false] at hend
        rintro ⟨-, -, -, h1, h2, h3, h4, h5⟩
        obtain ⟨e, he, hesuf⟩ := hend
        rcases he with rfl | rfl | rfl | rfl | rfl
        · exact h1 (List.isSuffixOf_iff_suffix.mp hesuf)
        · exact h2 (List.isSuffixOf_iff_suffix.mp hesuf)
        · exact h3 (List.isSuffixOf_iff_suffix.mp hesuf)
        · exact h4 (List.isSuffixOf_iff_suffix.mp hesuf)
        · exact h5 (List.isSuffixOf_iff_suffix.mp hesuf)
      · next hend =>
        simp only [non_plural_endings, List.any_eq_true, List.mem_cons,
          List.not_mem_nil, or_false, not_exists, not_and] at hend
        simp only [true_iff]
        refine ⟨List.isSuffixOf_iff_suffix.mp hs, hlen,
          fun hx => hss (List.isSuffixOf_iff_suffix.mpr hx), ?_, ?_, ?_, ?_, ?_⟩
        · exact fun hx => hend _ (Or.inl rfl) (List.isSuffixOf_iff_suffix.mpr hx)
        · exact fun hx => hend _ (Or.inr (Or.inl rfl)) (List.isSuffixOf_iff_suffix.mpr hx)
        · exact fun hx => hend _ (Or.inr (Or.inr (Or.inl rfl))) (List.isSuffixOf_iff_suffix.mpr hx)
        · exact fun hx =>
            hend _ (Or.inr (Or.inr (Or.inr (Or.inl rfl)))) (List.isSuffixOf_iff_suffix.mpr hx)
        · exact fun hx =>
            hend _ (Or.inr (Or.inr (Or.inr (Or.inr rfl)))) (List.isSuffixOf_iff_suffix.mpr hx)

/-- C7: `_is_obscure_word` holds exactly when the word's length is at
least 15, or it contains two consecutive letters from the rare set
q, x, z, or its length is at least 6 and some single character accounts
for at least 60 percent of the word's characters. -/
theorem is_obscure_word_iff (word : Word) :
    _is_obscure_word word = true ↔
      (15 ≤ word.length ∨
        (∃ a b, (a = 'q' ∨ a = 'x' ∨ a = 'z') ∧ (b = 'q' ∨ b = 'x' ∨ b = 'z') ∧
          [a, b] <:+: word) ∨
        (6 ≤ word.length ∧ ∃ ch ∈ word, 3 * word.length ≤ 5 * word.count ch)) := by
  have hrare : ∀ c : Char, isRareLetter c = true ↔ (c = 'q' ∨ c = 'x' ∨ c = 'z') := by
    intro c
    simp [isRareLetter, or_assoc]
  constructor
  · intro h
    unfold _is_obscure_word at h
    split at h
    · next hm =>
      simp only [matchesExcludePattern, Bool.or_eq_true, decide_eq_true_eq] at hm
      rcases hm with hm | hm
      · exact Or.inl hm
      · refine Or.inr (Or.inl ?_)
        obtain ⟨a, b, ha, hb, hinf⟩ := (hasConsecutiveRare_iff word).mp hm
        exact ⟨a, b, (hrare a).mp ha, (hrare b).mp hb, hinf⟩
    · split at h
      · next hc =>
        obtain ⟨h6, c, hcmem, hcnt⟩ := hc
        exact Or.inr (Or.inr ⟨h6, c, List.mem_dedup.mp hcmem, hcnt⟩)
      · exact absurd h (by simp)
  · intro h
    unfold _is_obscure_word
    rcases h with h | h | h
    · have hm : matchesExcludePattern word = true := by
        simp [matchesExcludePattern, h]
      simp [hm]
    · obtain ⟨a, b, ha, hb, hinf⟩ := h
      have hm : matchesExcludePattern word = true := by
        simp only [matchesExcludePattern, Bool.or_eq_true]
        exact Or.inr ((hasConsecutiveRare_iff word).mpr
          ⟨a, b, (hrare a).mpr ha, (hrare b).mpr hb, hinf⟩)
      simp [hm]
    · obtain ⟨h6, c, hcmem, hcnt⟩ := h
      split
      · rfl
      · split
        · rfl
        · next hc => exact absurd ⟨h6, c, List.mem_dedup.mpr hcmem, hcnt⟩ hc

/-! ### Claim theorems for the pipeline -/

lemma solve_ext (letters : List Char) (center : Char) (lines : List Word)
    (ml pb : Nat) (mz mz' : Option ℚ) (mx : Option Nat) (fp fo ag ag' : Bool)
    (orc orc' : Option (Word → ℚ))
    (hpw : ∀ w, processWord (letters.map Char.toLower).dedup center.toLower ml pb mz mx
        fp fo ag orc w =
      processWord (letters.map Char.toLower).dedup center.toLower ml pb mz' mx
        fp fo ag' orc' w) :
    solve_spellingbee letters center lines ml pb mz mx fp fo ag orc =
      solve_spellingbee letters center lines ml pb mz' mx fp fo ag' orc' := by
  simp only [solve_spellingbee]
  rw [List.filterMap_congr (fun w _ => hpw w)]

lemma solve_eq_ok_of (letters : List Char) (center : Char) (lines : List Word)
    (ml pb : Nat) (mz : Option ℚ) (mx : Option Nat) (fp fo ag : Bool)
    (orc : Option (Word → ℚ)) (rs : List WordResult)
    (h7 : (letters.map Char.toLower).dedup.length = 7)
    (hc : center.toLower ∈ (letters.map Char.toLower).dedup)
    (hres : ((_load_words lines).filterMap
        (processWord (letters.map Char.toLower).dedup center.toLower ml pb mz mx fp fo ag
          orc)).mergeSort resultLE = rs) :
    solve_spellingbee letters center lines ml pb mz mx fp fo ag orc = .ok rs := by
  simp only [solve_spellingbee]
  rw [if_neg (not_not_intro h7), if_neg (not_not_intro hc), hres]

/-- C1: every result of a successful solve has word length at least
`min_len`, contains the (lowercased) center letter, and draws every
character from the distinct lowercased letter set. -/
theorem solve_results_valid (letters : List Char) (center : Char) (lines : List Word)
    (min_len pangram_bonus : Nat) (min_zipf : Option ℚ) (max_len : Option Nat)
    (filter_plurals filter_obscure use_aggressive_filtering : Bool)
    (zipf_frequency : Option (Word → ℚ)) (rs : List WordResult)
    (h : solve_spellingbee letters center lines min_len pangram_bonus min_zipf max_len
        filter_plurals filter_obscure use_aggressive_filtering zipf_frequency = .ok rs) :
    ∀ r ∈ rs, min_len ≤ r.word.length ∧ center.toLower ∈ r.word ∧
      ∀ c ∈ r.word, c ∈ (letters.map Char.toLower).dedup := by
  intro r hr
  obtain ⟨w, hw, hp⟩ := (solve_ok_mem letters center lines min_len pangram_bonus min_zipf
    max_len filter_plurals filter_obscure use_aggressive_filtering zipf_frequency rs h r).mp hr
  obtain ⟨hword, -, hvalid, -, -, -⟩ := processWord_eq_some _ _ _ _ _ _ _ _ _ _ _ _ hp
  subst hword
  obtain ⟨hlen, hc, hsub, -, -⟩ := (is_valid_word_true_iff _ _ _ _ _ _).mp hvalid
  exact ⟨hlen, hc, hsub⟩

/-- C1 witness. -/
theorem solve_results_valid_witness :
    4 ≤ (WordResult.mk ['r','e','n','t'] 1 false 4 0).word.length ∧
      Char.toLower 'N' ∈ (WordResult.mk ['r','e','n','t'] 1 false 4 0).word := by
  have h := solve_results_valid ['A','E','L','N','R','S','T'] 'N' [['r','e','n','t']] 4 7 none
    (some 10) true true false none [WordResult.mk ['r','e','n','t'] 1 false 4 0]
    (solve_eq_ok_of _ _ _ _ _ _ _ _ _ _ _ _ (by decide) (by decide) (by
      rw [show (_load_words [['r','e','n','t']]).filterMap
          (processWord ((['A','E','L','N','R','S','T'] : List Char).map Char.toLower).dedup
            (Char.toLower 'N') 4 7 none (some 10) true true false none) =
          [WordResult.mk ['r','e','n','t'] 1 false 4 0] from by decide]
      simp [List.mergeSort]))
    (WordResult.mk ['r','e','n','t'] 1 false 4 0) (List.mem_singleton.mpr rfl)
  exact ⟨h.1, h.2.1⟩

/-- C2: the output is sorted: any earlier result has a strictly larger
score, or an equal score and a lexicographically no-larger word. -/
theorem solve_results_sorted (letters : List Char) (center : Char) (lines : List Word)
    (min_len pangram_bonus : Nat) (min_zipf : Option ℚ) (max_len : Option Nat)
    (filter_plurals filter_obscure use_aggressive_filtering : Bool)
    (zipf_frequency : Option (Word → ℚ)) (rs : List WordResult)
    (h : solve_spellingbee letters center lines min_len pangram_bonus min_zipf max_len
        filter_plurals filter_obscure use_aggressive_filtering zipf_frequency = .ok rs) :
    rs.Pairwise fun a b =>
      b.score < a.score ∨
        (a.score = b.score ∧ (a.word = b.word ∨ List.Lex (· < ·) a.word b.word)) := by
  obtain ⟨-, -, rfl⟩ := solve_eq_ok letters center lines min_len pangram_bonus min_zipf
    max_len filter_plurals filter_obscure use_aggressive_filtering zipf_frequency rs h
  have hsorted := List.sorted_mergeSort resultLE_trans resultLE_total
    ((_load_words lines).filterMap
      (processWord (letters.map Char.toLower).dedup center.toLower min_len pangram_bonus
        min_zipf max_len filter_plurals filter_obscure use_aggressive_filtering zipf_frequency))
  refine hsorted.imp fun hab => ?_
  rcases (resultLE_iff _ _).mp hab with h' | ⟨he, hw⟩
  · exact Or.inl h'
  · exact Or.inr ⟨he, (wordLE_iff _ _).mp hw⟩

/-- C2 witness. -/
theorem solve_results_sorted_witness :
    List.Pairwise (fun a b : WordResult =>
        b.score < a.score ∨
          (a.score = b.score ∧ (a.word = b.word ∨ List.Lex (· < ·) a.word b.word)))
      [WordResult.mk ['l','e','a','r','n','t'] 6 false 6 0,
        WordResult.mk ['r','e','n','t','a','l'] 6 false 6 0,
        WordResult.mk ['r','e','n','t'] 1 false 4 0] :=
  solve_results_sorted ['A','E','L','N','R','S','T'] 'N'
    [['r','e','n','t'], ['r','e','n','t','a','l'], ['l','e','a','r','n','t']] 4 7 none (some 10)
    true true false none _
    (solve_eq_ok_of _ _ _ _ _ _ _ _ _ _ _ _ (by decide) (by decide) (by
      rw [show (_load_words [['r','e','n','t'], ['r','e','n','t','a','l'],
            ['l','e','a','r','n','t']]).filterMap
          (processWord ((['A','E','L','N','R','S','T'] : List Char).map Char.toLower).dedup
            (Char.toLower 'N') 4 7 none (some 10) true true false none) =
          [WordResult.mk ['r','e','n','t'] 1 false 4 0,
            WordResult.mk ['r','e','n','t','a','l'] 6 false 6 0,
            WordResult.mk ['l','e','a','r','n','t'] 6 false 6 0] from by decide]
      simp [List.mergeSort, resultLE, wordLE]))

/-- C4: a solve fails exactly when the distinct lowercased letter count is
not 7 or the lowercased center is not among the letters, and on such a
failure the outcome is the same for every word source: the error precedes
any dictionary processing and no partial result list is produced. -/
theorem solve_config_error_iff (letters : List Char) (center : Char)
    (min_len pangram_bonus : Nat) (min_zipf : Option ℚ) (max_len : Option Nat)
    (filter_plurals filter_obscure use_aggressive_filtering : Bool)
    (zipf_frequency : Option (Word → ℚ)) :
    (∀ lines, (∃ e, solve_spellingbee letters center lines min_len pangram_bonus min_zipf
        max_len filter_plurals filter_obscure use_aggressive_filtering zipf_frequency =
          .error e) ↔
      ((letters.map Char.toLower).dedup.length ≠ 7 ∨
        center.toLower ∉ (letters.map Char.toLower).dedup)) ∧
    (∀ lines lines',
      ((letters.map Char.toLower).dedup.length ≠ 7 ∨
        center.toLower ∉ (letters.map Char.toLower).dedup) →
      solve_spellingbee letters center lines min_len pangram_bonus min_zipf max_len
          filter_plurals filter_obscure use_aggressive_filtering zipf_frequency =
        solve_spellingbee letters center lines' min_len pangram_bonus min_zipf max_len
          filter_plurals filter_obscure use_aggressive_filtering zipf_frequency) := by
  constructor
  · intro lines
    constructor
    · rintro ⟨e, he⟩
      by_contra hcon
      push_neg at hcon
      obtain ⟨h7, hc⟩ := hcon
      simp only [solve_spellingbee] at he
      rw [if_neg (not_not.mpr h7), if_neg (not_not.mpr hc)] at he
      simp at he
    · intro hcond
      simp only [solve_spellingbee]
      rcases hcond with h | h
      · rw [if_pos h]
        exact ⟨_, rfl⟩
      · by_cases h7 : (letters.map Char.toLower).dedup.length ≠ 7
        · rw [if_pos h7]
          exact ⟨_, rfl⟩
        · rw [if_neg h7, if_pos h]
          exact ⟨_, rfl⟩
  · intro lines lines' hcond
    simp only [solve_spellingbee]
    rcases hcond with h | h
    · rw [if_pos h, if_pos h]
    · by_cases h7 : (letters.map Char.toLower).dedup.length ≠ 7
      · rw [if_pos h7, if_pos h7]
      · rw [if_neg h7, if_neg h7, if_pos h, if_pos h]

/-- C4 witness: six distinct letters give the same configuration error no
matter which word source is supplied. -/
theorem solve_config_error_iff_witness :
    solve_spellingbee ['A','E','L','N','R','S'] 'N' [] 4 7 none (some 10) true true false none =
      solve_spellingbee ['A','E','L','N','R','S'] 'N' [['r','e','n','t']] 4 7 none (some 10)
        true true false none :=
  (solve_config_error_iff ['A','E','L','N','R','S'] 'N' 4 7 none (some 10) true true false
    none).2 [] [['r','e','n','t']] (Or.inl (by decide))

/-- C8: with an active frequency filter and aggressive filtering on, words
of length ≥ 8 scoring below threshold + 0.3 and words of length ≥ 9
scoring below threshold + 0.5 never appear in the output; with aggressive
filtering off every base-threshold survivor is kept; and when frequency
filtering is inactive (no oracle, or no threshold) the aggressive flag
changes nothing. -/
theorem solve_aggressive_filtering (letters : List Char) (center : Char) (lines : List Word)
    (min_len pangram_bonus : Nat) (max_len : Option Nat) (filter_plurals filter_obscure : Bool)
    (t : ℚ) (f : Word → ℚ) (mz : Option ℚ) (orc orc2 : Option (Word → ℚ)) (ag ag2 : Bool) :
    (∀ rs, solve_spellingbee letters center lines min_len pangram_bonus (some t) max_len
        filter_plurals filter_obscure true (some f) = .ok rs →
      ∀ w : Word,
        ((8 ≤ w.length ∧ f w < t + 3/10) ∨ (9 ≤ w.length ∧ f w < t + 1/2)) →
        ∀ r ∈ rs, r.word ≠ w) ∧
    (∀ rs, solve_spellingbee letters center lines min_len pangram_bonus (some t) max_len
        filter_plurals filter_obscure false (some f) = .ok rs →
      ∀ w ∈ _load_words lines,
        _is_valid_word w (letters.map Char.toLower).dedup center.toLower min_len
          filter_plurals filter_obscure = true →
        maxLenExceeded max_len w.length = false →
        t ≤ f w →
        ∃ r ∈ rs, r.word = w) ∧
    (solve_spellingbee letters center lines min_len pangram_bonus mz max_len
        filter_plurals filter_obscure ag none =
      solve_spellingbee letters center lines min_len pangram_bonus mz max_len
        filter_plurals filter_obscure ag2 none) ∧
    (solve_spellingbee letters center lines min_len pangram_bonus none max_len
        filter_plurals filter_obscure ag orc =
      solve_spellingbee letters center lines min_len pangram_bonus none max_len
        filter_plurals filter_obscure ag2 orc2) := by
  refine ⟨?_, ?_, ?_, ?_⟩
  · intro rs h w hw r hr hword
    obtain ⟨w', hw', hp⟩ := (solve_ok_mem letters center lines min_len pangram_bonus (some t)
      max_len filter_plurals filter_obscure true (some f) rs h r).mp hr
    obtain ⟨hword', -, -, -, -, -⟩ := processWord_eq_some _ _ _ _ _ _ _ _ _ _ _ _ hp
    subst hword'
    rw [hword] at hp
    obtain ⟨-, -, hag⟩ := processWord_eq_some_zipf _ _ _ _ _ _ _ _ _ _ _ _ hp
    obtain ⟨h8, h9⟩ := hag rfl
    rcases hw with ⟨hl, hlt⟩ | ⟨hl, hlt⟩
    · exact absurd (h8 hl) (not_le.mpr hlt)
    · exact absurd (h9 hl) (not_le.mpr hlt)
  · intro rs h w hw hvalid hlen hz
    refine ⟨⟨w, (_score_word w (letters.map Char.toLower).dedup pangram_bonus).1,
      (_score_word w (letters.map Char.toLower).dedup pangram_bonus).2, w.length, f w⟩,
      ?_, rfl⟩
    rw [solve_ok_mem letters center lines min_len pangram_bonus (some t) max_len
      filter_plurals filter_obscure false (some f) rs h _]
    exact ⟨w, hw, processWord_eq_some_of _ _ _ _ _ _ _ _ _ _ hvalid hlen hz⟩
  · exact solve_ext _ _ _ _ _ _ _ _ _ _ _ _ _ _ fun w =>
      (processWord_oracle_none _ _ _ _ mz _ _ _ ag ag2 w).trans
        (processWord_oracle_none _ _ _ _ mz _ _ _ ag2 ag2 w).symm
  · exact solve_ext _ _ _ _ _ _ _ _ _ _ _ _ _ _ fun w =>
      processWord_minzipf_none _ _ _ _ _ _ _ ag ag2 orc orc2 w

/-- C8 witness: with threshold 1 and a uniform frequency score of 1, the
8-letter word "lanterns" sits above the base threshold but below
threshold + 0.3, so aggressive filtering rejects it; the surviving result
is the 4-letter "rent". -/
theorem solve_aggressive_filtering_witness :
    (WordResult.mk ['r','e','n','t'] 1 false 4 1).word ≠ ['l','a','n','t','e','r','n','s'] := by
  have h2 : processWord ['a','e','l','n','r','s','t'] 'n' 4 7 (some 1) (some 10) false false
      true (some fun _ => 1) ['l','a','n','t','e','r','n','s'] = none := by
    have hvalid : _is_valid_word ['l','a','n','t','e','r','n','s']
        ['a','e','l','n','r','s','t'] 'n' 4 false false = true := by decide
    have hmax : maxLenExceeded (some 10)
        (['l','a','n','t','e','r','n','s'] : Word).length = false := by decide
    simp only [processWord, hvalid, hmax, _get_zipf]
    norm_num
  have h3 : processWord ['a','e','l','n','r','s','t'] 'n' 4 7 (some 1) (some 10) false false
      true (some fun _ => 1) ['r','e','n','t'] =
      some (WordResult.mk ['r','e','n','t'] 1 false 4 1) := by
    have hvalid : _is_valid_word ['r','e','n','t']
        ['a','e','l','n','r','s','t'] 'n' 4 false false = true := by decide
    have hmax : maxLenExceeded (some 10) (['r','e','n','t'] : Word).length = false := by decide
    simp only [processWord, hvalid, hmax, _get_zipf]
    norm_num [_score_word, _is_pangram]
    decide
  exact (solve_aggressive_filtering ['A','E','L','N','R','S','T'] 'N'
    [['l','a','n','t','e','r','n','s'], ['r','e','n','t']] 4 7 (some 10) false false 1
    (fun _ => 1) none none none false false).1 [WordResult.mk ['r','e','n','t'] 1 false 4 1]
    (solve_eq_ok_of _ _ _ _ _ _ _ _ _ _ _ _ (by decide) (by decide) (by
      rw [show _load_words [['l','a','n','t','e','r','n','s'], ['r','e','n','t']] =
          [['l','a','n','t','e','r','n','s'], ['r','e','n','t']] from by decide]
      simp [h2, h3, List.mergeSort]))
    ['l','a','n','t','e','r','n','s'] (Or.inl ⟨by decide, by norm_num⟩)
    (WordResult.mk ['r','e','n','t'] 1 false 4 1) (List.mem_singleton.mpr rfl)

/-- C9: with the frequency service absent the oracle returns the neutral
value 0 for every word, the solve outcome is exactly the one with no
frequency threshold configured (no word is rejected on frequency
grounds), and every result's zipf field is 0. -/
theorem solve_degraded_mode (letters : List Char) (center : Char) (lines : List Word)
    (min_len pangram_bonus : Nat) (min_zipf : Option ℚ) (max_len : Option Nat)
    (filter_plurals filter_obscure use_aggressive_filtering : Bool) :
    (∀ w : Word, _get_zipf none w = 0) ∧
    (solve_spellingbee letters center lines min_len pangram_bonus min_zipf max_len
        filter_plurals filter_obscure use_aggressive_filtering none =
      solve_spellingbee letters center lines min_len pangram_bonus none max_len
        filter_plurals filter_obscure use_aggressive_filtering none) ∧
    (∀ rs, solve_spellingbee letters center lines min_len pangram_bonus min_zipf max_len
        filter_plurals filter_obscure use_aggressive_filtering none = .ok rs →
      ∀ r ∈ rs, r.zipf_score = 0) := by
  refine ⟨fun w => rfl, ?_, ?_⟩
  · exact solve_ext _ _ _ _ _ _ _ _ _ _ _ _ _ _ fun w =>
      processWord_oracle_none _ _ _ _ min_zipf _ _ _ _ _ w
  · intro rs h r hr
    obtain ⟨w, -, hp⟩ := (solve_ok_mem letters center lines min_len pangram_bonus min_zipf
      max_len filter_plurals filter_obscure use_aggressive_filtering none rs h r).mp hr
    exact processWord_zipf_eq_zero _ _ _ _ _ _ _ _ _ _ _ _ (Or.inr rfl) hp

/-- C9 witness. -/
theorem solve_degraded_mode_witness :
    (WordResult.mk ['r','e','n','t'] 1 false 4 0).zipf_score = 0 :=
  (solve_degraded_mode ['A','E','L','N','R','S','T'] 'N' [['r','e','n','t']] 4 7 (some (7/2))
    (some 10) true true false).2.2 [WordResult.mk ['r','e','n','t'] 1 false 4 0]
    (solve_eq_ok_of _ _ _ _ _ _ _ _ _ _ _ _ (by decide) (by decide) (by
      rw [show (_load_words [['r','e','n','t']]).filterMap
          (processWord ((['A','E','L','N','R','S','T'] : List Char).map Char.toLower).dedup
            (Char.toLower 'N') 4 7 (some (7/2)) (some 10) true true false none) =
          [WordResult.mk ['r','e','n','t'] 1 false 4 0] from by decide]
      simp [List.mergeSort]))
    (WordResult.mk ['r','e','n','t'] 1 false 4 0) (List.mem_singleton.mpr rfl)

/-- C10: with no configured threshold the solver's output is identical for
every oracle and every aggressive-filtering setting — the oracle is never
consulted — and every result's zipf field is 0. -/
theorem solve_no_threshold (letters : List Char) (center : Char) (lines : List Word)
    (min_len pangram_bonus : Nat) (max_len : Option Nat) (filter_plurals filter_obscure : Bool)
    (ag ag2 : Bool) (orc orc2 : Option (Word → ℚ)) :
    (solve_spellingbee letters center lines min_len pangram_bonus none max_len
        filter_plurals filter_obscure ag orc =
      solve_spellingbee letters center lines min_len pangram_bonus none max_len
        filter_plurals filter_obscure ag2 orc2) ∧
    (∀ rs, solve_spellingbee letters center lines min_len pangram_bonus none max_len
        filter_plurals filter_obscure ag orc = .ok rs →
      ∀ r ∈ rs, r.zipf_score = 0) := by
  constructor
  · exact solve_ext _ _ _ _ _ _ _ _ _ _ _ _ _ _ fun w =>
      processWord_minzipf_none _ _ _ _ _ _ _ ag ag2 orc orc2 w
  · intro rs h r hr
    obtain ⟨w, -, hp⟩ := (solve_ok_mem letters center lines min_len pangram_bonus none
      max_len filter_plurals filter_obscure ag orc rs h r).mp hr
    exact processWord_zipf_eq_zero _ _ _ _ _ _ _ _ _ _ _ _ (Or.inl rfl) hp

/-- C10 witness. -/
theorem solve_no_threshold_witness :
    (WordResult.mk ['n','e','a','r'] 1 false 4 0).zipf_score = 0 :=
  (solve_no_threshold ['A','E','L','N','R','S','T'] 'N' [['n','e','a','r']] 4 7 (some 10)
    true true true false (some fun _ => 5) none).2 [WordResult.mk ['n','e','a','r'] 1 false 4 0]
    (solve_eq_ok_of _ _ _ _ _ _ _ _ _ _ _ _ (by decide) (by decide) (by
      rw [show (_load_words [['n','e','a','r']]).filterMap
          (processWord ((['A','E','L','N','R','S','T'] : List Char).map Char.toLower).dedup
            (Char.toLower 'N') 4 7 none (some 10) true true true (some fun _ => 5)) =
          [WordResult.mk ['n','e','a','r'] 1 false 4 0] from by decide]
      simp [List.mergeSort]))
    (WordResult.mk ['n','e','a','r'] 1 false 4 0) (List.mem_singleton.mpr rfl)

end SpellingBee
